import Mathlib

/-!
Shallow embedding of `registry/search/service.py` (class `FaissService`):
the metadata store, the id counter, the vector index, the upsert/remove
operations, the tool matcher and the mixed search pipeline, together with
theorems checking the specification's claims about them.

Python dictionaries are modelled as association lists with distinct keys,
Python `int` as `Int`, Python `float` arithmetic as exact rationals, the
embedding backend as a function `String → Option V` (`none` models an
`encode` call that raises), and the FAISS nearest-neighbour search as an
arbitrary function producing `(distance, id)` rows.
-/

namespace FaissSpec

/-- One tool dictionary of a server's `tool_list`: the keys read by
`_get_text_for_embedding` and `_extract_matching_tools`. Absent keys are
modelled as `""` (Python `dict.get` defaults / falsy `or` chains make the
distinction between a missing key and an empty string irrelevant here). -/
structure ToolDef where
  name : String
  description : String
  pd_main : String
  pd_args : String
  pd_summary : String
  schema : String
  deriving DecidableEq, Repr

/-- A server-info dictionary (`server_info`) with the keys the service reads:
`server_name`, `description`, `tags`, `tool_list`, `num_tools`, `is_enabled`,
`path`, and the optional `entity_type`. -/
structure ServerInfo where
  server_name : String
  description : String
  tags : List String
  tool_list : List ToolDef
  num_tools : Int
  is_enabled : Bool
  path : String
  entity_type : Option String
  deriving DecidableEq, Repr

/-- One skill of an agent card. Modelled from the spec:
`AgentDescriptor.skills[]{name, description}` — the `AgentCard` pydantic
model lives in `registry/schemas/agent_models.py`, which is not among the
sources; its fields are taken from the spec's data model. -/
structure Skill where
  name : String
  description : String
  deriving DecidableEq, Repr

/-- An agent card. Modelled from the spec:
`AgentDescriptor{name, description, tags[], skills[], visibility, trustLevel}`
(the pydantic model itself is not among the sources). `is_enabled` models the
optional `is_enabled` key read by `search_mixed` via `get("is_enabled", False)`. -/
structure AgentCard where
  name : String
  description : String
  tags : List String
  skills : List Skill
  visibility : String
  trust_level : Option String
  is_enabled : Option Bool
  deriving DecidableEq, Repr

/-- One value of `metadata_store`: the dictionary written by
`add_or_update_service` / `add_or_update_agent`. `full_server_info` and
`full_agent_card` are `Option`s because each writer sets only one of the
two keys and readers use `dict.get`. -/
structure MetaEntry where
  id : Int
  text_for_embedding : String
  full_server_info : Option ServerInfo
  full_agent_card : Option AgentCard
  entity_type : String
  deriving DecidableEq, Repr

/-- The mutable state of a `FaissService`: `metadata_store` (a path-keyed
dictionary, modelled as an association list), `next_id_counter`, and the
FAISS index modelled as its id → vector map (`V` is the opaque vector type). -/
structure FaissState (V : Type) where
  metadata_store : List (String × MetaEntry)
  next_id_counter : Int
  index : List (Int × V)
  deriving Repr, DecidableEq

/-- `_initialize_new_index`: empty store, counter `0`, empty index. -/
def initialState (V : Type) : FaissState V :=
  { metadata_store := [], next_id_counter := 0, index := [] }

/-- Result of one mutating operation: the post-state, how many times the
embedding model's `encode` was invoked, and whether `save_data` was called. -/
structure OpResult (V : Type) where
  state : FaissState V
  encode_calls : Nat
  saved : Bool
  deriving Repr, DecidableEq

/-! ### Dictionary operations on the association-list model -/

/-- `d.get(k)`: first binding of `k`. -/
def storeGet (s : List (String × MetaEntry)) (k : String) : Option MetaEntry :=
  match s with
  | [] => none
  | (k', v) :: rest => if k' = k then some v else storeGet rest k

/-- `d[k] = v`: replace the binding of `k` in place, or append a new one. -/
def storeSet (s : List (String × MetaEntry)) (k : String) (v : MetaEntry) :
    List (String × MetaEntry) :=
  match s with
  | [] => [(k, v)]
  | (k', v') :: rest => if k' = k then (k, v) :: rest else (k', v') :: storeSet rest k v

/-- `del d[k]`: drop the binding of `k` (the first one; keys are distinct). -/
def storeDel (s : List (String × MetaEntry)) (k : String) :
    List (String × MetaEntry) :=
  match s with
  | [] => []
  | (k', v') :: rest => if k' = k then rest else (k', v') :: storeDel rest k

/-- Well-formedness of the dictionary model: keys are pairwise distinct,
as in any Python `dict`. -/
def StoreWF (s : List (String × MetaEntry)) : Prop :=
  (s.map Prod.fst).Nodup

/-! ### Python string primitives

`str.strip`, `str.lower`, `re.split` and slicing are modelled directly over
the character list (structurally recursive, so concrete instances reduce). -/

/-- The whitespace characters `str.strip()` removes (the ASCII ones). -/
def isPySpace (c : Char) : Bool :=
  c = ' ' || c = '\t' || c = '\n' || c = '\r' || c = '\x0b' || c = '\x0c'

/-- `s.strip()`. -/
def pyStrip (s : String) : String :=
  String.mk (((s.data.dropWhile isPySpace).reverse.dropWhile isPySpace).reverse)

/-- `s.lower()` (ASCII case folding). -/
def pyLower (s : String) : String := String.mk (s.data.map Char.toLower)

/-- `s[:n]` (by characters). -/
def pyTake (s : String) (n : Nat) : String := String.mk (s.data.take n)

/-- Split a character list at every character satisfying `p`, keeping empty
pieces (as `re.split` on single characters would). -/
def splitChars (p : Char → Bool) : List Char → List Char → List (List Char)
  | acc, [] => [acc.reverse]
  | acc, c :: cs =>
    if p c then acc.reverse :: splitChars p [] cs
    else splitChars p (c :: acc) cs

/-- Split a string at every character satisfying `p`. -/
def pySplit (s : String) (p : Char → Bool) : List String :=
  (splitChars p [] s.data).map String.mk

/-! ### Text rendering -/

/-- Python's falsy-`or` on strings: `a or b` is `b` when `a` is empty. -/
def pyOr (a b : String) : String := if a = "" then b else a

/-- The tool description used by `_get_text_for_embedding`:
`parsed_description.get("main") or tool.get("description", "")`. -/
def toolDescEmbed (t : ToolDef) : String := pyOr t.pd_main t.description

/-- `_get_text_for_embedding(server_info)`. -/
def get_text_for_embedding (info : ServerInfo) : String :=
  let tag_string := String.intercalate ", " info.tags
  let tool_snippets := info.tool_list.map (fun t =>
    pyStrip ("Tool: " ++ t.name ++ ". Description: " ++ toolDescEmbed t ++
      ". Args: " ++ t.pd_args))
  let tools_section := String.intercalate "\n" tool_snippets
  pyStrip ("Name: " ++ info.server_name ++ "\n" ++
    "Description: " ++ info.description ++ "\n" ++
    "Tags: " ++ tag_string ++ "\n" ++
    "Tools:\n" ++ tools_section)

/-- `_get_text_for_agent(agent_card)`. -/
def get_text_for_agent (card : AgentCard) : String :=
  let skills_text :=
    if card.skills = [] then ""
    else
      "Skills: " ++ String.intercalate ", " (card.skills.map (·.name)) ++
      "\nSkill Details: " ++
      String.intercalate " | "
        (card.skills.map (fun sk => sk.name ++ ": " ++ sk.description))
  let tag_string := if card.tags = [] then "" else String.intercalate ", " card.tags
  let base := ["Name: " ++ card.name, "Description: " ++ card.description]
  let withSkills := if skills_text = "" then base else base ++ [skills_text]
  let parts := if tag_string = "" then withSkills else withSkills ++ ["Tags: " ++ tag_string]
  String.intercalate "\n" parts

/-! ### Upserts and removals -/

variable {V : Type}

/-- `enriched_server_info = server_info.copy(); enriched["is_enabled"] = is_enabled`. -/
def enrich (info : ServerInfo) (is_enabled : Bool) : ServerInfo :=
  { info with is_enabled := is_enabled }

/-- `faiss_index.remove_ids([i])`: drop every vector stored under id `i`. -/
def indexRemoveId (idx : List (Int × V)) (i : Int) : List (Int × V) :=
  idx.filter (fun iv => decide (iv.1 ≠ i))

/-- The metadata phase shared by both branches of `add_or_update_service`:
write the entry and save when the entry is new, re-embedded, or the enriched
server info differs from the stored one; otherwise skip both. -/
def finishService (st : FaissState V) (service_path : String)
    (server_info : ServerInfo) (is_enabled : Bool) (current_faiss_id : Int)
    (text_to_embed : String) (existing_entry : Option MetaEntry)
    (needs : Bool) (ecalls : Nat) : OpResult V :=
  let enriched := enrich server_info is_enabled
  let write : Bool :=
    match existing_entry with
    | none => true
    | some e => needs || decide (e.full_server_info ≠ some enriched)
  if write then
    let entry : MetaEntry :=
      { id := current_faiss_id, text_for_embedding := text_to_embed,
        full_server_info := some enriched, full_agent_card := none,
        entity_type := server_info.entity_type.getD "mcp_server" }
    { state := { st with metadata_store := storeSet st.metadata_store service_path entry },
      encode_calls := ecalls, saved := true }
  else
    { state := st, encode_calls := ecalls, saved := false }

/-- `add_or_update_service(service_path, server_info, is_enabled)` on an
initialized service, with `encode` the embedding backend (`none` = the
`encode` call raises, caught at the end of the embedding `try`). -/
def add_or_update_service (encode : String → Option V) (st : FaissState V)
    (service_path : String) (server_info : ServerInfo) (is_enabled : Bool) :
    OpResult V :=
  let text_to_embed := get_text_for_embedding server_info
  let existing_entry := storeGet st.metadata_store service_path
  match existing_entry with
  | some e =>
    if e.text_for_embedding = text_to_embed then
      finishService st service_path server_info is_enabled e.id text_to_embed
        existing_entry false 0
    else
      match encode text_to_embed with
      | none => { state := st, encode_calls := 1, saved := false }
      | some vec =>
        let idx := indexRemoveId st.index e.id ++ [(e.id, vec)]
        finishService { st with index := idx } service_path server_info is_enabled
          e.id text_to_embed existing_entry true 1
  | none =>
    let current_faiss_id := st.next_id_counter
    let st1 : FaissState V := { st with next_id_counter := st.next_id_counter + 1 }
    match encode text_to_embed with
    | none => { state := st1, encode_calls := 1, saved := false }
    | some vec =>
      let idx := st1.index ++ [(current_faiss_id, vec)]
      finishService { st1 with index := idx } service_path server_info is_enabled
        current_faiss_id text_to_embed none true 1

/-- The metadata phase of `add_or_update_agent`: the stored record is the
agent card itself (`model_dump()`), never enriched with `is_enabled`. -/
def finishAgent (st : FaissState V) (agent_path : String) (card : AgentCard)
    (current_faiss_id : Int) (text_to_embed : String)
    (existing_entry : Option MetaEntry) (needs : Bool) (ecalls : Nat) :
    OpResult V :=
  let write : Bool :=
    match existing_entry with
    | none => true
    | some e => needs || decide (e.full_agent_card ≠ some card)
  if write then
    let entry : MetaEntry :=
      { id := current_faiss_id, text_for_embedding := text_to_embed,
        full_server_info := none, full_agent_card := some card,
        entity_type := "a2a_agent" }
    { state := { st with metadata_store := storeSet st.metadata_store agent_path entry },
      encode_calls := ecalls, saved := true }
  else
    { state := st, encode_calls := ecalls, saved := false }

/-- `add_or_update_agent(agent_path, agent_card, is_enabled)` on an
initialized service. The `is_enabled` argument is accepted but not stored. -/
def add_or_update_agent (encode : String → Option V) (st : FaissState V)
    (agent_path : String) (card : AgentCard) (is_enabled : Bool) : OpResult V :=
  let _ := is_enabled
  let text_to_embed := get_text_for_agent card
  let existing_entry := storeGet st.metadata_store agent_path
  match existing_entry with
  | some e =>
    if e.text_for_embedding = text_to_embed then
      finishAgent st agent_path card e.id text_to_embed existing_entry false 0
    else
      match encode text_to_embed with
      | none => { state := st, encode_calls := 1, saved := false }
      | some vec =>
        let idx := indexRemoveId st.index e.id ++ [(e.id, vec)]
        finishAgent { st with index := idx } agent_path card e.id text_to_embed
          existing_entry true 1
  | none =>
    let current_faiss_id := st.next_id_counter
    let st1 : FaissState V := { st with next_id_counter := st.next_id_counter + 1 }
    match encode text_to_embed with
    | none => { state := st1, encode_calls := 1, saved := false }
    | some vec =>
      let idx := st1.index ++ [(current_faiss_id, vec)]
      finishAgent { st1 with index := idx } agent_path card current_faiss_id
        text_to_embed none true 1

/-- `remove_service(service_path)`: absent path → log and return; present →
delete the metadata entry and save. The vector and the counter are untouched. -/
def remove_service (st : FaissState V) (service_path : String) : OpResult V :=
  match storeGet st.metadata_store service_path with
  | none => { state := st, encode_calls := 0, saved := false }
  | some _ =>
    { state := { st with metadata_store := storeDel st.metadata_store service_path },
      encode_calls := 0, saved := true }

/-- `remove_agent(agent_path)`: the same logic as `remove_service`
(only the log strings differ; the stored `entity_type` is never inspected). -/
def remove_agent (st : FaissState V) (agent_path : String) : OpResult V :=
  match storeGet st.metadata_store agent_path with
  | none => { state := st, encode_calls := 0, saved := false }
  | some _ =>
    { state := { st with metadata_store := storeDel st.metadata_store agent_path },
      encode_calls := 0, saved := true }

/-- `remove_entity(entity_path)`: `remove_agent` first, falling back to
`remove_service` only if the former raises — which it never does (it catches
every exception internally and an absent path is an early return). -/
def remove_entity (st : FaissState V) (entity_path : String) : OpResult V :=
  remove_agent st entity_path

/-! ### Tool matching (`_extract_matching_tools`) -/

/-- A word character of the regex `\W`: letters, digits, underscore. -/
def isWordChar (c : Char) : Bool := c.isAlphanum || c = '_'

/-- `re.split(r"\W+", query.lower())` with empties dropped. -/
def tokenize (query : String) : List String :=
  (pySplit (pyLower query) (fun c => !isWordChar c)).filter (fun t => t ≠ "")

/-- Does `pat` occur at the head of `l`? -/
def leadsWith : List Char → List Char → Bool
  | [], _ => true
  | _ :: _, [] => false
  | a :: as, b :: bs => a = b && leadsWith as bs

/-- Does `pat` occur contiguously anywhere in `l`? -/
def occursIn (pat : List Char) : List Char → Bool
  | [] => pat.isEmpty
  | b :: bs => leadsWith pat (b :: bs) || occursIn pat bs

/-- Python's substring test `tok in hay`. -/
def strContainsTok (hay tok : String) : Bool := occursIn tok.toList hay.toList

/-- The tool description used by `_extract_matching_tools`:
`pd.get("main") or tool.get("description") or pd.get("summary") or ""`. -/
def toolDescMatch (t : ToolDef) : String :=
  pyOr t.pd_main (pyOr t.description t.pd_summary)

/-- `f"{tool_name} {tool_desc} {tool_args}".lower()`. -/
def searchableText (t : ToolDef) : String :=
  pyLower (t.name ++ " " ++ toolDescMatch t ++ " " ++ t.pd_args)

/-- One tool-match record produced by `_extract_matching_tools`. -/
structure ToolMatch where
  tool_name : String
  description : String
  match_context : String
  schema : String
  raw_score : ℚ
  deriving DecidableEq, Repr

/-- How many elements of the token list (with multiplicity) occur in the
tool's searchable text. -/
def matchesFound (tokens : List String) (t : ToolDef) : Nat :=
  (tokens.filter (fun tok => strContainsTok (searchableText t) tok)).length

/-- The candidate `(coverage, match-record)` pair for one tool, `none` when
the tool is skipped (blank searchable text or zero matches). -/
def matchEntry (tokens : List String) (t : ToolDef) : Option (ℚ × ToolMatch) :=
  let stext := searchableText t
  if pyStrip stext = "" then none
  else
    let found := matchesFound tokens t
    if found = 0 then none
    else
      let coverage : ℚ := (found : ℚ) / (tokens.length : ℚ)
      some (coverage,
        { tool_name := t.name, description := toolDescMatch t,
          match_context := pyTake (pyOr (toolDescMatch t) t.pd_args) 180,
          schema := t.schema, raw_score := coverage })

/-- Insert into a descending-sorted list: the element goes before the first
position whose key is not larger, so later-inserted equal keys stay behind
earlier ones — the stable order of Python's `list.sort(reverse=True)`. -/
def insertDesc {α : Type} (key : α → ℚ) (a : α) : List α → List α
  | [] => [a]
  | b :: bs =>
    if key b ≤ key a then a :: b :: bs else b :: insertDesc key a bs

/-- Python's stable `list.sort(key=…, reverse=True)` by a rational key
(stable insertion sort from the right). -/
def sortDescBy {α : Type} (key : α → ℚ) : List α → List α
  | [] => []
  | a :: as => insertDesc key a (sortDescBy key as)

/-- `_extract_matching_tools(query, server_info)` (taking the `tool_list`). -/
def extract_matching_tools (query : String) (tools : List ToolDef) :
    List ToolMatch :=
  if tools = [] then []
  else
    let tokens := tokenize query
    if tokens = [] then []
    else (sortDescBy Prod.fst (tools.filterMap (matchEntry tokens))).map Prod.snd

/-! ### Relevance and mixed search -/

/-- `_distance_to_relevance(distance)`: `max(0.0, min(1.0, 1/(1+d)))`.
Rationals stand in for Python floats; at `d = -1` Python's
`ZeroDivisionError → 0.0` coincides with Lean's `1/0 = 0` clamped to `0`. -/
def distance_to_relevance (d : ℚ) : ℚ := max 0 (min 1 (1 / (1 + d)))

/-- A member of a server result's `matching_tools` list. -/
structure EmbeddedTool where
  tool_name : String
  description : String
  relevance_score : ℚ
  match_context : String
  deriving DecidableEq, Repr

/-- One element of the `servers` result list of `search_mixed`. -/
structure ServerResult where
  path : String
  server_name : String
  description : String
  tags : List String
  num_tools : Int
  is_enabled : Bool
  relevance_score : ℚ
  match_context : String
  matching_tools : List EmbeddedTool
  deriving DecidableEq, Repr

/-- One element of the `tools` result list of `search_mixed`. -/
structure ToolResult where
  server_path : String
  server_name : String
  tool_name : String
  description : String
  match_context : String
  relevance_score : ℚ
  deriving DecidableEq, Repr

/-- One element of the `agents` result list of `search_mixed`. -/
structure AgentResult where
  path : String
  agent_name : String
  description : String
  tags : List String
  skills : List String
  visibility : String
  trust_level : Option String
  is_enabled : Bool
  relevance_score : ℚ
  match_context : String
  agent_card : AgentCard
  deriving DecidableEq, Repr

/-- The three result collections of `search_mixed`. -/
structure SearchResults where
  servers : List ServerResult
  tools : List ToolResult
  agents : List AgentResult
  deriving DecidableEq, Repr

/-- The exceptions `search_mixed` can raise: `ValueError` on a blank query,
`RuntimeError` when uninitialized, and a propagated `encode` failure. -/
inductive SearchErr where
  | validation
  | unavailable
  | encodingFailure
  deriving DecidableEq, Repr

/-- `path.strip("/")`. -/
def stripSlashes (s : String) : String :=
  String.mk (((s.toList.dropWhile (fun c => c = '/')).reverse.dropWhile
    (fun c => c = '/')).reverse)

/-- The reverse index `{entry["id"]: path}` built by `search_mixed` by dict
comprehension: on duplicate ids the later binding wins. -/
def idToPath (s : List (String × MetaEntry)) (i : Int) : Option String :=
  match s with
  | [] => none
  | (p, e) :: rest =>
    match idToPath rest i with
    | some q => some q
    | none => if e.id = i then some p else none

/-- The result records contributed by one `(distance, faiss_id)` hit of the
search loop: at most one server record, at most five tool records, at most
one agent record. -/
def hitResults (st : FaissState V) (fS fT fA : Bool) (query : String)
    (dist : ℚ) (fid : Int) :
    List ServerResult × List ToolResult × List AgentResult :=
  if fid = -1 then ([], [], [])
  else
    match idToPath st.metadata_store fid with
    | none => ([], [], [])
    | some path =>
      if path = "" then ([], [], [])
      else
        match storeGet st.metadata_store path with
        | none => ([], [], [])
        | some entry =>
          let relevance := distance_to_relevance dist
          if entry.entity_type = "mcp_server" then
            match entry.full_server_info with
            | none => ([], [], [])
            | some si =>
              let match_context :=
                pyOr si.description
                  (pyOr (String.intercalate ", " si.tags) si.path)
              let matching_tools :=
                if fT then (extract_matching_tools query si.tool_list).take 5
                else []
              let srec : List ServerResult :=
                if fS then
                  [{ path := path,
                     server_name := pyOr si.server_name (stripSlashes path),
                     description := si.description, tags := si.tags,
                     num_tools := si.num_tools, is_enabled := si.is_enabled,
                     relevance_score := relevance, match_context := match_context,
                     matching_tools := matching_tools.map (fun tm =>
                       { tool_name := tm.tool_name,
                         description := tm.description,
                         relevance_score := min 1 ((relevance + tm.raw_score) / 2),
                         match_context := tm.match_context }) }]
                else []
              let trecs : List ToolResult :=
                if fT then
                  matching_tools.map (fun tm =>
                    { server_path := path,
                      server_name := pyOr si.server_name (stripSlashes path),
                      tool_name := tm.tool_name, description := tm.description,
                      match_context := tm.match_context,
                      relevance_score := min 1 ((relevance + tm.raw_score) / 2) })
                else []
              (srec, trecs, [])
          else if entry.entity_type = "a2a_agent" then
            if fA then
              match entry.full_agent_card with
              | none => ([], [], [])
              | some card =>
                let skills := card.skills.map (·.name)
                let match_context :=
                  pyOr card.description
                    (pyOr (String.intercalate ", " skills)
                      (String.intercalate ", " card.tags))
                ([], [],
                 [{ path := path,
                    agent_name := pyOr card.name (stripSlashes path),
                    description := card.description, tags := card.tags,
                    skills := skills, visibility := card.visibility,
                    trust_level := card.trust_level,
                    is_enabled := card.is_enabled.getD false,
                    relevance_score := relevance, match_context := match_context,
                    agent_card := card }])
            else ([], [], [])
          else ([], [], [])

/-- The search loop over the `(distance, id)` rows, in row order. -/
def processHits (st : FaissState V) (fS fT fA : Bool) (query : String) :
    List (ℚ × Int) → List ServerResult × List ToolResult × List AgentResult
  | [] => ([], [], [])
  | (dist, fid) :: rest =>
    let h := hitResults st fS fT fA query dist fid
    let r := processHits st fS fT fA query rest
    (h.1 ++ r.1, h.2.1 ++ r.2.1, h.2.2 ++ r.2.2)

/-- `search_mixed(query, entity_types, max_results)`.

`encode` is the embedding backend, `fsearch` the FAISS k-NN search (an
arbitrary function from the index contents, the query vector and `k` to
`(distance, id)` rows), and `initialized` models
`embedding_model is None or faiss_index is None`. The second component of
the result counts `encode` invocations. -/
def search_mixed (encode : String → Option V)
    (fsearch : List (Int × V) → V → Nat → List (ℚ × Int))
    (initialized : Bool) (st : FaissState V) (query : String)
    (entity_types : Option (List String)) (max_results : Nat) :
    Except SearchErr SearchResults × Nat :=
  if pyStrip query = "" then (.error .validation, 0)
  else if !initialized then (.error .unavailable, 0)
  else
    let maxR := max 1 (min max_results 50)
    let dflt := ["mcp_server", "tool", "a2a_agent"]
    let req :=
      match entity_types with
      | none => dflt
      | some l => if l = [] then dflt else l
    let fS0 := req.contains "mcp_server"
    let fT0 := req.contains "tool"
    let fA0 := req.contains "a2a_agent"
    let someReq := fS0 || fT0 || fA0
    let fS := if someReq then fS0 else true
    let fT := if someReq then fT0 else true
    let fA := if someReq then fA0 else true
    if st.index.length = 0 then (.ok ⟨[], [], []⟩, 0)
    else
      let topk := min maxR st.index.length
      match encode (pyStrip query) with
      | none => (.error .encodingFailure, 1)
      | some qv =>
        let hits := fsearch st.index qv topk
        let r := processHits st fS fT fA query hits
        (.ok ⟨(sortDescBy ServerResult.relevance_score r.1).take maxR,
              (sortDescBy ToolResult.relevance_score r.2.1).take maxR,
              (sortDescBy AgentResult.relevance_score r.2.2).take maxR⟩, 1)

/-! ### Operation sequences and reachability -/

/-- States reachable from a freshly initialized service by upserts and
removals (with arbitrary embedding backends along the way). -/
inductive Reachable {V : Type} : FaissState V → Prop where
  | init : Reachable (initialState V)
  | upsertSvc {st : FaissState V} (enc p info b) (h : Reachable st) :
      Reachable (add_or_update_service enc st p info b).state
  | upsertAgt {st : FaissState V} (enc p card b) (h : Reachable st) :
      Reachable (add_or_update_agent enc st p card b).state
  | rmSvc {st : FaissState V} (p) (h : Reachable st) :
      Reachable (remove_service st p).state
  | rmAgt {st : FaissState V} (p) (h : Reachable st) :
      Reachable (remove_agent st p).state

/-- One registry mutation, carrying its own embedding backend. -/
inductive RegOp (V : Type) where
  | upsertSvc (enc : String → Option V) (path : String) (info : ServerInfo)
      (enabled : Bool)
  | upsertAgt (enc : String → Option V) (path : String) (card : AgentCard)
      (enabled : Bool)
  | rmSvc (path : String)
  | rmAgt (path : String)

/-- Apply one mutation to a state. -/
def RegOp.apply : RegOp V → FaissState V → FaissState V
  | .upsertSvc enc p info b, st => (add_or_update_service enc st p info b).state
  | .upsertAgt enc p card b, st => (add_or_update_agent enc st p card b).state
  | .rmSvc p, st => (remove_service st p).state
  | .rmAgt p, st => (remove_agent st p).state

/-- Apply a sequence of mutations left to right. -/
def applyOps (ops : List (RegOp V)) (st : FaissState V) : FaissState V :=
  ops.foldl (fun s op => op.apply s) st

/-- Is this mutation an upsert of path `p`? -/
def RegOp.IsUpsertOf : RegOp V → String → Prop
  | .upsertSvc _ q _ _, p => q = p
  | .upsertAgt _ q _ _, p => q = p
  | .rmSvc _, _ => False
  | .rmAgt _, _ => False

/-- One upsert (of either kind) for the fresh-id claim. -/
inductive UpsertOp where
  | svc (path : String) (info : ServerInfo) (enabled : Bool)
  | agt (path : String) (card : AgentCard) (enabled : Bool)

/-- The path an upsert targets. -/
def UpsertOp.path : UpsertOp → String
  | .svc p _ _ => p
  | .agt p _ _ => p

/-- Apply one upsert with backend `enc`. -/
def UpsertOp.apply (enc : String → Option V) : UpsertOp → FaissState V → FaissState V
  | .svc p info b, st => (add_or_update_service enc st p info b).state
  | .agt p card b, st => (add_or_update_agent enc st p card b).state

/-- Apply a sequence of upserts left to right. -/
def applyUpserts (enc : String → Option V) (ops : List UpsertOp)
    (st : FaissState V) : FaissState V :=
  ops.foldl (fun s op => op.apply enc s) st

/-- The invariant the spec claims of the metadata store: distinct keys,
pairwise distinct live ids, all live ids below the counter. -/
def IdInv (s : List (String × MetaEntry)) (c : Int) : Prop :=
  StoreWF s ∧ (s.map (fun pe => pe.2.id)).Nodup ∧ ∀ pe ∈ s, pe.2.id < c

/-- The spec-side characterization of the matcher's output (with the token
count taken with multiplicity, as the code does): one record per tool whose
trimmed searchable text is non-empty and which contains at least one query
token, scored by matched token count over total token count. -/
def c4Candidates (query : String) (tools : List ToolDef) : List ToolMatch :=
  (tools.filter (fun t => decide (pyStrip (searchableText t) ≠ "") &&
    decide (0 < matchesFound (tokenize query) t))).map (fun t =>
    { tool_name := t.name, description := toolDescMatch t,
      match_context := pyTake (pyOr (toolDescMatch t) t.pd_args) 180,
      schema := t.schema,
      raw_score := (matchesFound (tokenize query) t : ℚ) /
        ((tokenize query).length : ℚ) })

/-! ### Sample data for concrete checks -/

/-- A tool named `cat` with no description. -/
def catTool : ToolDef :=
  { name := "cat", description := "", pd_main := "", pd_args := "",
    pd_summary := "", schema := "" }

/-- The spec's scenario tool `get_forecast`. -/
def sampleTool : ToolDef :=
  { name := "get_forecast", description := "returns forecast", pd_main := "",
    pd_args := "", pd_summary := "", schema := "" }

/-- The spec's scenario server `/weather`. -/
def sampleInfo : ServerInfo :=
  { server_name := "WeatherAPI", description := "get forecasts",
    tags := ["weather"], tool_list := [sampleTool], num_tools := 1,
    is_enabled := false, path := "", entity_type := none }

/-- The spec's scenario agent `Bot1`. -/
def sampleCard : AgentCard :=
  { name := "Bot1", description := "schedules meetings", tags := [],
    skills := [{ name := "calendar", description := "manage calendar" }],
    visibility := "public", trust_level := none, is_enabled := none }

/-- A backend whose `encode` always succeeds (vectors are irrelevant). -/
def encodeAll : String → Option Unit := fun _ => some ()

/-- A backend whose `encode` always raises. -/
def encodeNone : String → Option Unit := fun _ => none

/-- The metadata entry the service writes for `sampleInfo` at `/weather`. -/
def sampleEntry : MetaEntry :=
  { id := 0, text_for_embedding := get_text_for_embedding sampleInfo,
    full_server_info := some (enrich sampleInfo true),
    full_agent_card := none, entity_type := "mcp_server" }

/-- A one-entry service state: `/weather` indexed under id 0. -/
def sampleState : FaissState Unit :=
  { metadata_store := [("/weather", sampleEntry)], next_id_counter := 1,
    index := [(0, ())] }

/-- Sequence of the spec's two scenario upserts. -/
def sampleOps : List UpsertOp :=
  [UpsertOp.svc "/weather" sampleInfo true,
   UpsertOp.agt "/agents/bot1" sampleCard true]

/-! ### Dictionary lemmas -/

theorem storeGet_set_self (s : List (String × MetaEntry)) (k : String)
    (v : MetaEntry) : storeGet (storeSet s k v) k = some v := by
  induction s with
  | nil => simp [storeSet, storeGet]
  | cons hd tl ih =>
    obtain ⟨k', v'⟩ := hd
    by_cases hk : k' = k
    · simp [storeSet, storeGet, hk]
    · simp [storeSet, storeGet, hk, ih]

theorem storeGet_set_ne (s : List (String × MetaEntry)) {k k' : String}
    (v : MetaEntry) (h : k' ≠ k) :
    storeGet (storeSet s k v) k' = storeGet s k' := by
  have hne : k ≠ k' := Ne.symm h
  induction s with
  | nil => simp [storeSet, storeGet, hne]
  | cons hd tl ih =>
    obtain ⟨k0, v0⟩ := hd
    by_cases hk : k0 = k
    · subst hk
      simp [storeSet, storeGet, hne]
    · simp only [storeSet, if_neg hk, storeGet]
      by_cases hk' : k0 = k'
      · simp [hk']
      · simp [hk', ih]

theorem storeSet_of_absent {s : List (String × MetaEntry)} {k : String}
    (v : MetaEntry) (h : storeGet s k = none) : storeSet s k v = s ++ [(k, v)] := by
  induction s with
  | nil => simp [storeSet]
  | cons hd tl ih =>
    obtain ⟨k0, v0⟩ := hd
    by_cases hk : k0 = k
    · simp [storeGet, hk] at h
    · simp only [storeGet, if_neg hk] at h
      simp [storeSet, hk, ih h]

theorem storeDel_of_absent {s : List (String × MetaEntry)} {k : String}
    (h : storeGet s k = none) : storeDel s k = s := by
  induction s with
  | nil => simp [storeDel]
  | cons hd tl ih =>
    obtain ⟨k0, v0⟩ := hd
    by_cases hk : k0 = k
    · simp [storeGet, hk] at h
    · simp only [storeGet, if_neg hk] at h
      simp [storeDel, hk, ih h]

theorem storeGet_eq_none_iff {s : List (String × MetaEntry)} {k : String} :
    storeGet s k = none ↔ k ∉ s.map Prod.fst := by
  induction s with
  | nil => simp [storeGet]
  | cons hd tl ih =>
    obtain ⟨k0, v0⟩ := hd
    by_cases hk : k0 = k
    · simp [storeGet, hk]
    · have : ¬ k = k0 := fun hh => hk hh.symm
      simp [storeGet, hk, ih, this]

theorem storeGet_some_mem {s : List (String × MetaEntry)} {k : String}
    {e : MetaEntry} (h : storeGet s k = some e) : (k, e) ∈ s := by
  induction s with
  | nil => simp [storeGet] at h
  | cons hd tl ih =>
    obtain ⟨k0, v0⟩ := hd
    by_cases hk : k0 = k
    · subst hk
      simp [storeGet] at h
      simp [h]
    · simp only [storeGet, if_neg hk] at h
      exact List.mem_cons_of_mem _ (ih h)

theorem storeDel_sublist (s : List (String × MetaEntry)) (k : String) :
    (storeDel s k).Sublist s := by
  induction s with
  | nil => simp [storeDel]
  | cons hd tl ih =>
    obtain ⟨k0, v0⟩ := hd
    by_cases hk : k0 = k
    · simp only [storeDel, if_pos hk]
      exact List.sublist_cons_self (k0, v0) tl
    · simpa [storeDel, hk] using ih.cons₂ (k0, v0)

theorem storeGet_del_ne (s : List (String × MetaEntry)) {k k' : String}
    (h : k' ≠ k) : storeGet (storeDel s k) k' = storeGet s k' := by
  induction s with
  | nil => simp [storeDel]
  | cons hd tl ih =>
    obtain ⟨k0, v0⟩ := hd
    by_cases hk : k0 = k
    · subst hk
      have hne : ¬ k0 = k' := Ne.symm h
      simp [storeDel, storeGet, hne]
    · simp only [storeDel, if_neg hk, storeGet]
      by_cases hk' : k0 = k'
      · simp [hk']
      · simp [hk', ih]

theorem storeGet_del_self {s : List (String × MetaEntry)} {k : String}
    (hwf : StoreWF s) : storeGet (storeDel s k) k = none := by
  induction s with
  | nil => simp [storeDel, storeGet]
  | cons hd tl ih =>
    obtain ⟨k0, v0⟩ := hd
    simp only [StoreWF, List.map_cons, List.nodup_cons] at hwf
    by_cases hk : k0 = k
    · subst hk
      simp only [storeDel, if_pos rfl]
      exact storeGet_eq_none_iff.mpr hwf.1
    · simp [storeDel, hk, storeGet, ih hwf.2]

theorem mem_storeSet {s : List (String × MetaEntry)} {k : String}
    {v : MetaEntry} {pe : String × MetaEntry} (h : pe ∈ storeSet s k v) :
    pe = (k, v) ∨ pe ∈ s := by
  induction s with
  | nil => simpa [storeSet] using h
  | cons hd tl ih =>
    obtain ⟨k0, v0⟩ := hd
    by_cases hk : k0 = k
    · simp only [storeSet, if_pos hk] at h
      rcases List.mem_cons.mp h with h1 | h1
      · exact Or.inl h1
      · exact Or.inr (List.mem_cons_of_mem _ h1)
    · simp only [storeSet, if_neg hk] at h
      rcases List.mem_cons.mp h with h1 | h1
      · exact Or.inr (by simp [h1])
      · rcases ih h1 with h2 | h2
        · exact Or.inl h2
        · exact Or.inr (List.mem_cons_of_mem _ h2)

theorem map_fst_set_existing {s : List (String × MetaEntry)} {k : String}
    {e : MetaEntry} (hg : storeGet s k = some e) (v : MetaEntry) :
    (storeSet s k v).map Prod.fst = s.map Prod.fst := by
  induction s with
  | nil => simp [storeGet] at hg
  | cons hd tl ih =>
    obtain ⟨k0, v0⟩ := hd
    by_cases hk : k0 = k
    · simp [storeSet, hk]
    · simp only [storeGet, if_neg hk] at hg
      simp [storeSet, hk, ih hg]

theorem map_ids_set_existing {s : List (String × MetaEntry)} {k : String}
    {e : MetaEntry} (hg : storeGet s k = some e) {v : MetaEntry}
    (hid : v.id = e.id) :
    (storeSet s k v).map (fun pe => pe.2.id) = s.map (fun pe => pe.2.id) := by
  induction s with
  | nil => simp [storeGet] at hg
  | cons hd tl ih =>
    obtain ⟨k0, v0⟩ := hd
    by_cases hk : k0 = k
    · simp only [storeGet, if_pos hk, Option.some.injEq] at hg
      subst hg
      simp [storeSet, hk, hid]
    · simp only [storeGet, if_neg hk] at hg
      simp [storeSet, hk, ih hg]

/-! ### Shape of the post-states -/

/-- `add_or_update_service` either leaves the store alone (bumping the
counter exactly when the path was new, i.e. the abort-after-bump on encode
failure and the no-change skip), or writes one entry under `service_path`:
reusing the stored id when the path existed, or using and consuming the
counter when it was new. -/
theorem upsert_svc_shape (enc : String → Option V) (st : FaissState V)
    (p : String) (info : ServerInfo) (b : Bool) :
    ((add_or_update_service enc st p info b).state.metadata_store =
        st.metadata_store ∧
      ((add_or_update_service enc st p info b).state.next_id_counter =
          st.next_id_counter ∨
        (add_or_update_service enc st p info b).state.next_id_counter =
          st.next_id_counter + 1)) ∨
    (∃ e entry, storeGet st.metadata_store p = some e ∧ entry.id = e.id ∧
      (add_or_update_service enc st p info b).state.metadata_store =
        storeSet st.metadata_store p entry ∧
      (add_or_update_service enc st p info b).state.next_id_counter =
        st.next_id_counter) ∨
    (∃ entry, storeGet st.metadata_store p = none ∧
      entry.id = st.next_id_counter ∧
      (add_or_update_service enc st p info b).state.metadata_store =
        storeSet st.metadata_store p entry ∧
      (add_or_update_service enc st p info b).state.next_id_counter =
        st.next_id_counter + 1) := by
  unfold add_or_update_service
  cases hg : storeGet st.metadata_store p with
  | some e =>
    simp only [hg]
    by_cases ht : e.text_for_embedding = get_text_for_embedding info
    · simp only [ht, if_true]
      by_cases hw : e.full_server_info = some (enrich info b)
      · simp [finishService, hw]
      · exact Or.inr (Or.inl ⟨e,
          ⟨e.id, get_text_for_embedding info, some (enrich info b), none,
            info.entity_type.getD "mcp_server"⟩, rfl, rfl,
          by simp [finishService, hw], by simp [finishService, hw]⟩)
    · simp only [ht, if_false]
      cases henc : enc (get_text_for_embedding info) with
      | none => simp [henc]
      | some vec =>
        simp only [henc]
        exact Or.inr (Or.inl ⟨e,
          ⟨e.id, get_text_for_embedding info, some (enrich info b), none,
            info.entity_type.getD "mcp_server"⟩, rfl, rfl,
          by simp [finishService], by simp [finishService]⟩)
  | none =>
    simp only [hg]
    cases henc : enc (get_text_for_embedding info) with
    | none => simp [henc]
    | some vec =>
      simp only [henc]
      exact Or.inr (Or.inr ⟨⟨st.next_id_counter, get_text_for_embedding info,
        some (enrich info b), none, info.entity_type.getD "mcp_server"⟩,
        trivial, rfl, by simp [finishService], by simp [finishService]⟩)

/-- The agent analogue of `upsert_svc_shape`. -/
theorem upsert_agt_shape (enc : String → Option V) (st : FaissState V)
    (p : String) (card : AgentCard) (b : Bool) :
    ((add_or_update_agent enc st p card b).state.metadata_store =
        st.metadata_store ∧
      ((add_or_update_agent enc st p card b).state.next_id_counter =
          st.next_id_counter ∨
        (add_or_update_agent enc st p card b).state.next_id_counter =
          st.next_id_counter + 1)) ∨
    (∃ e entry, storeGet st.metadata_store p = some e ∧ entry.id = e.id ∧
      (add_or_update_agent enc st p card b).state.metadata_store =
        storeSet st.metadata_store p entry ∧
      (add_or_update_agent enc st p card b).state.next_id_counter =
        st.next_id_counter) ∨
    (∃ entry, storeGet st.metadata_store p = none ∧
      entry.id = st.next_id_counter ∧
      (add_or_update_agent enc st p card b).state.metadata_store =
        storeSet st.metadata_store p entry ∧
      (add_or_update_agent enc st p card b).state.next_id_counter =
        st.next_id_counter + 1) := by
  unfold add_or_update_agent
  cases hg : storeGet st.metadata_store p with
  | some e =>
    simp only [hg]
    by_cases ht : e.text_for_embedding = get_text_for_agent card
    · simp only [ht, if_true]
      by_cases hw : e.full_agent_card = some card
      · simp [finishAgent, hw]
      · exact Or.inr (Or.inl ⟨e,
          ⟨e.id, get_text_for_agent card, none, some card, "a2a_agent"⟩,
          rfl, rfl, by simp [finishAgent, hw], by simp [finishAgent, hw]⟩)
    · simp only [ht, if_false]
      cases henc : enc (get_text_for_agent card) with
      | none => simp [henc]
      | some vec =>
        simp only [henc]
        exact Or.inr (Or.inl ⟨e,
          ⟨e.id, get_text_for_agent card, none, some card, "a2a_agent"⟩,
          rfl, rfl, by simp [finishAgent], by simp [finishAgent]⟩)
  | none =>
    simp only [hg]
    cases henc : enc (get_text_for_agent card) with
    | none => simp [henc]
    | some vec =>
      simp only [henc]
      exact Or.inr (Or.inr ⟨⟨st.next_id_counter, get_text_for_agent card,
        none, some card, "a2a_agent"⟩,
        trivial, rfl, by simp [finishAgent], by simp [finishAgent]⟩)

/-- `remove_service` either leaves the state alone or deletes the one
binding of `service_path`; the counter and the index are never touched. -/
theorem remove_svc_shape (st : FaissState V) (p : String) :
    ((remove_service st p).state.metadata_store = st.metadata_store ∨
      (remove_service st p).state.metadata_store =
        storeDel st.metadata_store p) ∧
    (remove_service st p).state.next_id_counter = st.next_id_counter ∧
    (remove_service st p).state.index = st.index := by
  unfold remove_service
  cases hg : storeGet st.metadata_store p <;> simp

/-- The agent analogue of `remove_svc_shape`. -/
theorem remove_agt_shape (st : FaissState V) (p : String) :
    ((remove_agent st p).state.metadata_store = st.metadata_store ∨
      (remove_agent st p).state.metadata_store =
        storeDel st.metadata_store p) ∧
    (remove_agent st p).state.next_id_counter = st.next_id_counter ∧
    (remove_agent st p).state.index = st.index := by
  unfold remove_agent
  cases hg : storeGet st.metadata_store p <;> simp

/-! ### The id/counter invariant -/

theorem idInv_mono {s : List (String × MetaEntry)} {c c' : Int}
    (h : IdInv s c) (hc : c ≤ c') : IdInv s c' :=
  ⟨h.1, h.2.1, fun pe hpe => lt_of_lt_of_le (h.2.2 pe hpe) hc⟩

theorem idInv_set_existing {s : List (String × MetaEntry)} {c : Int}
    {p : String} {e v : MetaEntry} (h : IdInv s c)
    (hg : storeGet s p = some e) (hid : v.id = e.id) :
    IdInv (storeSet s p v) c := by
  refine ⟨?_, ?_, ?_⟩
  · unfold StoreWF
    rw [map_fst_set_existing hg v]
    exact h.1
  · rw [map_ids_set_existing hg hid]
    exact h.2.1
  · intro pe hpe
    rcases mem_storeSet hpe with h1 | h1
    · subst h1
      simpa [hid] using h.2.2 (p, e) (storeGet_some_mem hg)
    · exact h.2.2 pe h1

theorem idInv_set_fresh {s : List (String × MetaEntry)} {c : Int}
    {p : String} {v : MetaEntry} (h : IdInv s c)
    (hg : storeGet s p = none) (hid : v.id = c) :
    IdInv (storeSet s p v) (c + 1) := by
  rw [storeSet_of_absent v hg]
  refine ⟨?_, ?_, ?_⟩
  · unfold StoreWF
    rw [List.map_append]
    rw [List.nodup_append]
    refine ⟨h.1, List.nodup_singleton _, ?_⟩
    intro x hx hx'
    simp only [List.map_cons, List.map_nil, List.mem_singleton] at hx'
    subst hx'
    exact storeGet_eq_none_iff.mp hg hx
  · rw [List.map_append, List.nodup_append]
    refine ⟨h.2.1, List.nodup_singleton _, ?_⟩
    intro x hx hx'
    simp only [List.map_cons, List.map_nil, List.mem_singleton] at hx'
    subst hx'
    rcases List.mem_map.mp hx with ⟨pe, hpe, hpeid⟩
    have := h.2.2 pe hpe
    rw [hpeid, hid] at this
    exact lt_irrefl _ this
  · intro pe hpe
    rcases List.mem_append.mp hpe with h1 | h1
    · exact lt_trans (h.2.2 pe h1) (lt_add_one c)
    · simp only [List.mem_singleton] at h1
      subst h1
      simp only [hid]
      exact lt_add_one c

theorem idInv_del {s : List (String × MetaEntry)} {c : Int} (p : String)
    (h : IdInv s c) : IdInv (storeDel s p) c := by
  have hsub := storeDel_sublist s p
  exact ⟨(hsub.map Prod.fst).nodup h.1, (hsub.map _).nodup h.2.1,
    fun pe hpe => h.2.2 pe (hsub.subset hpe)⟩

/-- Every reachable state satisfies the id/counter invariant. -/
theorem reachable_idInv {st : FaissState V} (h : Reachable st) :
    IdInv st.metadata_store st.next_id_counter := by
  induction h with
  | init => exact ⟨List.nodup_nil, List.nodup_nil, by simp [initialState]⟩
  | upsertSvc enc p info b h ih =>
    rcases upsert_svc_shape enc _ p info b with
      ⟨hs, hc | hc⟩ | ⟨e, entry, hg, hid, hs, hc⟩ | ⟨entry, hg, hid, hs, hc⟩
    · rw [hs, hc]
      exact ih
    · rw [hs, hc]
      exact idInv_mono ih (by omega)
    · rw [hs, hc]
      exact idInv_set_existing ih hg hid
    · rw [hs, hc]
      exact idInv_mono (idInv_set_fresh ih hg hid) le_rfl
  | upsertAgt enc p card b h ih =>
    rcases upsert_agt_shape enc _ p card b with
      ⟨hs, hc | hc⟩ | ⟨e, entry, hg, hid, hs, hc⟩ | ⟨entry, hg, hid, hs, hc⟩
    · rw [hs, hc]
      exact ih
    · rw [hs, hc]
      exact idInv_mono ih (by omega)
    · rw [hs, hc]
      exact idInv_set_existing ih hg hid
    · rw [hs, hc]
      exact idInv_mono (idInv_set_fresh ih hg hid) le_rfl
  | rmSvc p h ih =>
    obtain ⟨hs | hs, hc, -⟩ := remove_svc_shape _ p
    · rw [hs, hc]
      exact ih
    · rw [hs, hc]
      exact idInv_del p ih
  | rmAgt p h ih =>
    obtain ⟨hs | hs, hc, -⟩ := remove_agt_shape _ p
    · rw [hs, hc]
      exact ih
    · rw [hs, hc]
      exact idInv_del p ih

/-! ### Frame lemmas -/

theorem upsert_svc_frame (enc : String → Option V) (st : FaissState V)
    {p q : String} (info : ServerInfo) (b : Bool) (hne : p ≠ q) :
    storeGet (add_or_update_service enc st q info b).state.metadata_store p =
      storeGet st.metadata_store p := by
  rcases upsert_svc_shape enc st q info b with
    ⟨hs, -⟩ | ⟨e, entry, -, -, hs, -⟩ | ⟨entry, -, -, hs, -⟩ <;> rw [hs]
  · exact storeGet_set_ne _ _ hne
  · exact storeGet_set_ne _ _ hne

theorem upsert_agt_frame (enc : String → Option V) (st : FaissState V)
    {p q : String} (card : AgentCard) (b : Bool) (hne : p ≠ q) :
    storeGet (add_or_update_agent enc st q card b).state.metadata_store p =
      storeGet st.metadata_store p := by
  rcases upsert_agt_shape enc st q card b with
    ⟨hs, -⟩ | ⟨e, entry, -, -, hs, -⟩ | ⟨entry, -, -, hs, -⟩ <;> rw [hs]
  · exact storeGet_set_ne _ _ hne
  · exact storeGet_set_ne _ _ hne

theorem remove_svc_dead {st : FaissState V} {p : String}
    (h : storeGet st.metadata_store p = none) (q : String) :
    storeGet (remove_service st q).state.metadata_store p = none := by
  unfold remove_service
  cases hq : storeGet st.metadata_store q with
  | none => exact h
  | some e =>
    by_cases hpq : p = q
    · subst hpq
      rw [hq] at h
      exact absurd h (by simp)
    · simpa [storeGet_del_ne _ hpq] using h

theorem remove_agt_dead {st : FaissState V} {p : String}
    (h : storeGet st.metadata_store p = none) (q : String) :
    storeGet (remove_agent st q).state.metadata_store p = none := by
  unfold remove_agent
  cases hq : storeGet st.metadata_store q with
  | none => exact h
  | some e =>
    by_cases hpq : p = q
    · subst hpq
      rw [hq] at h
      exact absurd h (by simp)
    · simpa [storeGet_del_ne _ hpq] using h

/-- A path absent from the store stays absent under any mutation that is
not an upsert of that very path. -/
theorem regop_dead {st : FaissState V} {p : String} (op : RegOp V)
    (hop : ¬ op.IsUpsertOf p) (h : storeGet st.metadata_store p = none) :
    storeGet (op.apply st).metadata_store p = none := by
  cases op with
  | upsertSvc enc q info b =>
    have hne : p ≠ q := fun hh => hop (by simp [RegOp.IsUpsertOf, hh])
    rw [RegOp.apply, upsert_svc_frame enc st info b hne]
    exact h
  | upsertAgt enc q card b =>
    have hne : p ≠ q := fun hh => hop (by simp [RegOp.IsUpsertOf, hh])
    rw [RegOp.apply, upsert_agt_frame enc st card b hne]
    exact h
  | rmSvc q => exact remove_svc_dead h q
  | rmAgt q => exact remove_agt_dead h q

theorem applyOps_dead {p : String} (ops : List (RegOp V)) :
    ∀ (st : FaissState V), (∀ op ∈ ops, ¬ op.IsUpsertOf p) →
      storeGet st.metadata_store p = none →
      storeGet (applyOps ops st).metadata_store p = none := by
  induction ops with
  | nil => intro st _ h; exact h
  | cons op ops ih =>
    intro st hops h
    have h1 : applyOps (op :: ops) st = applyOps ops (op.apply st) := by
      simp [applyOps]
    rw [h1]
    exact ih _ (fun o ho => hops o (List.mem_cons_of_mem _ ho))
      (regop_dead op (hops op (List.mem_cons_self _ _)) h)

/-! ### Fresh upserts -/

theorem upsert_svc_fresh (enc : String → Option V) (st : FaissState V)
    (p : String) (info : ServerInfo) (b : Bool)
    (henc : (enc (get_text_for_embedding info)).isSome)
    (hg : storeGet st.metadata_store p = none) :
    (add_or_update_service enc st p info b).state.next_id_counter =
      st.next_id_counter + 1 ∧
    ∃ e, storeGet
        (add_or_update_service enc st p info b).state.metadata_store p =
        some e ∧ e.id = st.next_id_counter := by
  unfold add_or_update_service
  simp only [hg]
  cases henc2 : enc (get_text_for_embedding info) with
  | none =>
    rw [henc2] at henc
    exact absurd henc (by simp)
  | some vec =>
    simp only [henc2]
    refine ⟨by simp [finishService], ?_⟩
    exact ⟨⟨st.next_id_counter, get_text_for_embedding info,
      some (enrich info b), none, info.entity_type.getD "mcp_server"⟩,
      by simp [finishService, storeGet_set_self], rfl⟩

theorem upsert_agt_fresh (enc : String → Option V) (st : FaissState V)
    (p : String) (card : AgentCard) (b : Bool)
    (henc : (enc (get_text_for_agent card)).isSome)
    (hg : storeGet st.metadata_store p = none) :
    (add_or_update_agent enc st p card b).state.next_id_counter =
      st.next_id_counter + 1 ∧
    ∃ e, storeGet
        (add_or_update_agent enc st p card b).state.metadata_store p =
        some e ∧ e.id = st.next_id_counter := by
  unfold add_or_update_agent
  simp only [hg]
  cases henc2 : enc (get_text_for_agent card) with
  | none =>
    rw [henc2] at henc
    exact absurd henc (by simp)
  | some vec =>
    simp only [henc2]
    refine ⟨by simp [finishAgent], ?_⟩
    exact ⟨⟨st.next_id_counter, get_text_for_agent card, none, some card,
      "a2a_agent"⟩, by simp [finishAgent, storeGet_set_self], rfl⟩

theorem upsertOp_frame (enc : String → Option V) (op : UpsertOp)
    (st : FaissState V) {p : String} (hne : p ≠ op.path) :
    storeGet (op.apply enc st).metadata_store p =
      storeGet st.metadata_store p := by
  cases op with
  | svc q info b => exact upsert_svc_frame enc st info b hne
  | agt q card b => exact upsert_agt_frame enc st card b hne

theorem upsertOp_fresh (enc : String → Option V) (op : UpsertOp)
    (st : FaissState V) (henc : ∀ s, (enc s).isSome)
    (hg : storeGet st.metadata_store op.path = none) :
    (op.apply enc st).next_id_counter = st.next_id_counter + 1 ∧
    ∃ e, storeGet (op.apply enc st).metadata_store op.path = some e ∧
      e.id = st.next_id_counter := by
  cases op with
  | svc q info b => exact upsert_svc_fresh enc st q info b (henc _) hg
  | agt q card b => exact upsert_agt_fresh enc st q card b (henc _) hg

theorem applyUpserts_frame (enc : String → Option V) (ops : List UpsertOp) :
    ∀ (st : FaissState V) {q : String}, (∀ o ∈ ops, o.path ≠ q) →
      storeGet (applyUpserts enc ops st).metadata_store q =
        storeGet st.metadata_store q := by
  induction ops with
  | nil => intro st q _; rfl
  | cons op ops ih =>
    intro st q hops
    have h1 : applyUpserts enc (op :: ops) st =
        applyUpserts enc ops (op.apply enc st) := by
      simp [applyUpserts]
    rw [h1, ih _ (fun o ho => hops o (List.mem_cons_of_mem _ ho))]
    exact upsertOp_frame enc op st
      (Ne.symm (hops op (List.mem_cons_self _ _)))

/-- Folding fresh upserts with a total backend: the counter advances by one
per upsert and the `i`-th path receives id `counter + i`. -/
theorem applyUpserts_fresh_ids (enc : String → Option V)
    (henc : ∀ s, (enc s).isSome) (ops : List UpsertOp) :
    ∀ (st : FaissState V),
      (∀ op ∈ ops, storeGet st.metadata_store op.path = none) →
      (ops.map UpsertOp.path).Nodup →
      (applyUpserts enc ops st).next_id_counter =
        st.next_id_counter + ops.length ∧
      ∀ i (hi : i < ops.length), ∃ e,
        storeGet (applyUpserts enc ops st).metadata_store
          ((ops.get ⟨i, hi⟩).path) = some e ∧
        e.id = st.next_id_counter + i := by
  induction ops with
  | nil =>
    intro st _ _
    refine ⟨by simp [applyUpserts], ?_⟩
    intro i hi
    exact absurd hi (by simp)
  | cons op ops ih =>
    intro st hfresh hnd
    have happ : applyUpserts enc (op :: ops) st =
        applyUpserts enc ops (op.apply enc st) := by
      simp [applyUpserts]
    have hnd' := hnd
    rw [List.map_cons, List.nodup_cons] at hnd'
    have hstep := upsertOp_fresh enc op st henc
      (hfresh op (List.mem_cons_self _ _))
    have hfresh' : ∀ o ∈ ops,
        storeGet (op.apply enc st).metadata_store o.path = none := by
      intro o ho
      have hne : o.path ≠ op.path := by
        intro hh
        exact hnd'.1 (hh ▸ List.mem_map_of_mem UpsertOp.path ho)
      rw [upsertOp_frame enc op st hne]
      exact hfresh o (List.mem_cons_of_mem _ ho)
    obtain ⟨hcnt, hrest⟩ := ih (op.apply enc st) hfresh' hnd'.2
    refine ⟨?_, ?_⟩
    · rw [happ, hcnt, hstep.1]
      simp only [List.length_cons]
      omega
    · intro i hi
      match i with
      | 0 =>
        obtain ⟨e, he, hid⟩ := hstep.2
        have hpres : ∀ o ∈ ops, o.path ≠ op.path := by
          intro o ho hh
          exact hnd'.1 (hh ▸ List.mem_map_of_mem UpsertOp.path ho)
        refine ⟨e, ?_, by simpa using hid⟩
        show storeGet (applyUpserts enc (op :: ops) st).metadata_store
          op.path = some e
        rw [happ, applyUpserts_frame enc ops _ hpres]
        exact he
      | (j + 1) =>
        have hj : j < ops.length := by
          simpa [Nat.succ_lt_succ_iff] using hi
        obtain ⟨e, he, hid⟩ := hrest j hj
        refine ⟨e, ?_, ?_⟩
        · show storeGet (applyUpserts enc (op :: ops) st).metadata_store
            (ops.get ⟨j, hj⟩).path = some e
          rw [happ]
          exact he
        · rw [hid, hstep.1]
          push_cast
          omega

/-! ### The stable descending sort -/

theorem insertDesc_perm {α : Type} (key : α → ℚ) (a : α) (l : List α) :
    (insertDesc key a l).Perm (a :: l) := by
  induction l with
  | nil => exact List.Perm.refl _
  | cons b bs ih =>
    by_cases h : key b ≤ key a
    · simp [insertDesc, h]
    · simp only [insertDesc, if_neg h]
      exact (ih.cons b).trans (List.Perm.swap a b bs)

theorem sortDescBy_perm {α : Type} (key : α → ℚ) (l : List α) :
    (sortDescBy key l).Perm l := by
  induction l with
  | nil => exact List.Perm.refl _
  | cons a as ih =>
    exact (insertDesc_perm key a (sortDescBy key as)).trans (ih.cons a)

theorem mem_sortDescBy {α : Type} {key : α → ℚ} {l : List α} {a : α} :
    a ∈ sortDescBy key l ↔ a ∈ l :=
  (sortDescBy_perm key l).mem_iff

theorem insertDesc_sorted {α : Type} (key : α → ℚ) (a : α) {l : List α}
    (h : l.Pairwise (fun x y => key y ≤ key x)) :
    (insertDesc key a l).Pairwise (fun x y => key y ≤ key x) := by
  induction l with
  | nil => simp [insertDesc]
  | cons b bs ih =>
    rcases List.pairwise_cons.mp h with ⟨hb, hbs⟩
    by_cases hba : key b ≤ key a
    · simp only [insertDesc, if_pos hba]
      refine List.pairwise_cons.mpr ⟨?_, h⟩
      intro y hy
      rcases List.mem_cons.mp hy with hy | hy
      · subst hy
        exact hba
      · exact le_trans (hb y hy) hba
    · simp only [insertDesc, if_neg hba]
      refine List.pairwise_cons.mpr ⟨?_, ih hbs⟩
      intro y hy
      have hy2 := (insertDesc_perm key a bs).mem_iff.mp hy
      rcases List.mem_cons.mp hy2 with hy2 | hy2
      · subst hy2
        exact le_of_lt (lt_of_not_le hba)
      · exact hb y hy2

theorem sortDescBy_sorted {α : Type} (key : α → ℚ) (l : List α) :
    (sortDescBy key l).Pairwise (fun x y => key y ≤ key x) := by
  induction l with
  | nil => simp [sortDescBy]
  | cons a as ih => exact insertDesc_sorted key a ih

/-! ### Search results refer only to live paths -/

/-- Every record contributed by one hit carries a path that resolves in the
metadata store (the hit is skipped otherwise). -/
theorem hitResults_live (st : FaissState V) (fS fT fA : Bool) (q : String)
    (dist : ℚ) (fid : Int) :
    (∀ r ∈ (hitResults st fS fT fA q dist fid).1,
      (storeGet st.metadata_store r.path).isSome) ∧
    (∀ r ∈ (hitResults st fS fT fA q dist fid).2.1,
      (storeGet st.metadata_store r.server_path).isSome) ∧
    (∀ r ∈ (hitResults st fS fT fA q dist fid).2.2,
      (storeGet st.metadata_store r.path).isSome) := by
  unfold hitResults
  by_cases h1 : fid = -1
  · simp [h1]
  simp only [h1, if_false]
  cases h2 : idToPath st.metadata_store fid with
  | none => simp
  | some path =>
    by_cases h3 : path = ""
    · simp [h3]
    simp only [h3, if_false]
    cases h4 : storeGet st.metadata_store path with
    | none => simp
    | some entry =>
      by_cases h5 : entry.entity_type = "mcp_server"
      · simp only [h5, if_true]
        cases h6 : entry.full_server_info with
        | none => simp
        | some si =>
          refine ⟨?_, ?_, by simp⟩
          · intro r hr
            by_cases h7 : fS
            · simp only [h7, if_true, List.mem_singleton] at hr
              subst hr
              simp [h4]
            · simp [h7] at hr
          · intro r hr
            by_cases h8 : fT
            · simp only [h8, if_true] at hr
              rcases List.mem_map.mp hr with ⟨tm, htm, hrec⟩
              subst hrec
              simp [h4]
            · simp [h8] at hr
      · simp only [h5, if_false]
        by_cases h9 : entry.entity_type = "a2a_agent"
        · simp only [h9, if_true]
          by_cases hA : fA
          · simp only [hA, if_true]
            cases hc : entry.full_agent_card with
            | none => simp
            | some card =>
              refine ⟨by simp, by simp, ?_⟩
              intro r hr
              simp only [List.mem_singleton] at hr
              subst hr
              simp [h4]
          · simp [hA]
        · simp [h9]

/-- `hitResults_live` lifted over the whole hit loop. -/
theorem processHits_live (st : FaissState V) (fS fT fA : Bool) (q : String)
    (hits : List (ℚ × Int)) :
    (∀ r ∈ (processHits st fS fT fA q hits).1,
      (storeGet st.metadata_store r.path).isSome) ∧
    (∀ r ∈ (processHits st fS fT fA q hits).2.1,
      (storeGet st.metadata_store r.server_path).isSome) ∧
    (∀ r ∈ (processHits st fS fT fA q hits).2.2,
      (storeGet st.metadata_store r.path).isSome) := by
  induction hits with
  | nil => simp [processHits]
  | cons hit hits ih =>
    obtain ⟨dist, fid⟩ := hit
    have hh := hitResults_live st fS fT fA q dist fid
    refine ⟨?_, ?_, ?_⟩
    · intro r hr
      rcases List.mem_append.mp hr with h | h
      · exact hh.1 r h
      · exact ih.1 r h
    · intro r hr
      rcases List.mem_append.mp hr with h | h
      · exact hh.2.1 r h
      · exact ih.2.1 r h
    · intro r hr
      rcases List.mem_append.mp hr with h | h
      · exact hh.2.2 r h
      · exact ih.2.2 r h

/-- Every result `search_mixed` returns carries a path that resolves in the
metadata store of the state it searched. -/
theorem search_mixed_live (encode : String → Option V)
    (fsearch : List (Int × V) → V → Nat → List (ℚ × Int))
    (init : Bool) (st : FaissState V) (q : String)
    (ets : Option (List String)) (mr : Nat) (res : SearchResults) (n : Nat)
    (h : search_mixed encode fsearch init st q ets mr = (.ok res, n)) :
    (∀ r ∈ res.servers, (storeGet st.metadata_store r.path).isSome) ∧
    (∀ r ∈ res.tools, (storeGet st.metadata_store r.server_path).isSome) ∧
    (∀ r ∈ res.agents, (storeGet st.metadata_store r.path).isSome) := by
  unfold search_mixed at h
  by_cases h1 : pyStrip q = ""
  · simp [h1] at h
  simp only [h1, if_false] at h
  by_cases h2 : init
  · simp only [h2, Bool.not_true, Bool.false_eq_true, if_false] at h
    by_cases h3 : st.index.length = 0
    · simp only [h3, if_true, Prod.mk.injEq, Except.ok.injEq] at h
      have hres := h.1
      subst hres
      simp
    · simp only [h3, if_false] at h
      cases h4 : encode (pyStrip q) with
      | none =>
        rw [h4] at h
        simp at h
      | some qv =>
        rw [h4] at h
        simp only [Prod.mk.injEq, Except.ok.injEq] at h
        have hres := h.1
        subst hres
        refine ⟨?_, ?_, ?_⟩
        · intro r hr
          have hr1 := List.mem_of_mem_take hr
          rw [mem_sortDescBy] at hr1
          exact (processHits_live st _ _ _ q _).1 r hr1
        · intro r hr
          have hr1 := List.mem_of_mem_take hr
          rw [mem_sortDescBy] at hr1
          exact (processHits_live st _ _ _ q _).2.1 r hr1
        · intro r hr
          have hr1 := List.mem_of_mem_take hr
          rw [mem_sortDescBy] at hr1
          exact (processHits_live st _ _ _ q _).2.2 r hr1
  · simp [h2] at h

/-! ### Characterizing the tool matcher -/

theorem matchEntry_fst_eq {toks : List String} {t : ToolDef}
    {x : ℚ × ToolMatch} (hx : matchEntry toks t = some x) :
    x.1 = x.2.raw_score := by
  unfold matchEntry at hx
  by_cases h1 : pyStrip (searchableText t) = ""
  · simp [h1] at hx
  · simp only [h1, if_false] at hx
    by_cases h2 : matchesFound toks t = 0
    · simp [h2] at hx
    · simp only [h2, if_false, Option.some.injEq] at hx
      subst hx
      rfl

theorem filterMap_matchEntry (toks : List String) (tools : List ToolDef) :
    (tools.filterMap (matchEntry toks)).map Prod.snd =
    (tools.filter (fun t => decide (pyStrip (searchableText t) ≠ "") &&
      decide (0 < matchesFound toks t))).map (fun t =>
      { tool_name := t.name, description := toolDescMatch t,
        match_context := pyTake (pyOr (toolDescMatch t) t.pd_args) 180,
        schema := t.schema,
        raw_score := (matchesFound toks t : ℚ) / (toks.length : ℚ) }) := by
  induction tools with
  | nil => rfl
  | cons t tools ih =>
    by_cases h1 : pyStrip (searchableText t) = ""
    · simp [matchEntry, List.filterMap_cons, List.filter_cons, h1, ih]
    · by_cases h2 : matchesFound toks t = 0
      · simp [matchEntry, List.filterMap_cons, List.filter_cons, h1, h2, ih]
      · have h2' : 0 < matchesFound toks t := Nat.pos_of_ne_zero h2
        simp [matchEntry, List.filterMap_cons, List.filter_cons, h1, h2,
          h2', ih]

/-! ### The claims -/

/-- C1 (counterexample): upserting a new path while the encoder fails leaves
`next_id_counter` bumped from 0 to 1 — the operation does mutate the id
counter, contrary to the claim that all three components are unchanged. -/
theorem claim_C1_counterexample :
    (add_or_update_service encodeNone (initialState Unit) "/weather"
      sampleInfo true).state.next_id_counter ≠
      (initialState Unit).next_id_counter := by
  decide

/-- C1 (amended): when re-embedding is needed and `encode` fails, both
upserts abort with the metadata store and the vector index unchanged and no
persist; `next_id_counter` is unchanged for an existing path but remains
incremented by one for a new path (the bump precedes the failed encode and
is not rolled back). -/
theorem claim_C1_amended {V : Type} (enc : String → Option V)
    (st : FaissState V) (p : String) :
    (∀ (info : ServerInfo) (b : Bool),
      enc (get_text_for_embedding info) = none →
      (∀ e, storeGet st.metadata_store p = some e →
        e.text_for_embedding ≠ get_text_for_embedding info) →
      (add_or_update_service enc st p info b).state.metadata_store =
        st.metadata_store ∧
      (add_or_update_service enc st p info b).state.index = st.index ∧
      (add_or_update_service enc st p info b).saved = false ∧
      (add_or_update_service enc st p info b).state.next_id_counter =
        (match storeGet st.metadata_store p with
          | some _ => st.next_id_counter
          | none => st.next_id_counter + 1)) ∧
    (∀ (card : AgentCard) (b : Bool),
      enc (get_text_for_agent card) = none →
      (∀ e, storeGet st.metadata_store p = some e →
        e.text_for_embedding ≠ get_text_for_agent card) →
      (add_or_update_agent enc st p card b).state.metadata_store =
        st.metadata_store ∧
      (add_or_update_agent enc st p card b).state.index = st.index ∧
      (add_or_update_agent enc st p card b).saved = false ∧
      (add_or_update_agent enc st p card b).state.next_id_counter =
        (match storeGet st.metadata_store p with
          | some _ => st.next_id_counter
          | none => st.next_id_counter + 1)) := by
  constructor
  · intro info b henc hneed
    unfold add_or_update_service
    cases hg : storeGet st.metadata_store p with
    | some e =>
      have ht := hneed e hg
      simp only [hg]
      rw [if_neg ht, henc]
      exact ⟨rfl, rfl, rfl, rfl⟩
    | none =>
      simp only [hg]
      rw [henc]
      exact ⟨rfl, rfl, rfl, rfl⟩
  · intro card b henc hneed
    unfold add_or_update_agent
    cases hg : storeGet st.metadata_store p with
    | some e =>
      have ht := hneed e hg
      simp only [hg]
      rw [if_neg ht, henc]
      exact ⟨rfl, rfl, rfl, rfl⟩
    | none =>
      simp only [hg]
      rw [henc]
      exact ⟨rfl, rfl, rfl, rfl⟩

/-- C1 (witness): the amended abort behaviour at a concrete failing encode
on an existing path with changed text. -/
theorem claim_C1_witness :
    (add_or_update_service encodeNone sampleState "/weather"
      { sampleInfo with description := "changed" } true).state.metadata_store =
      sampleState.metadata_store ∧
    (add_or_update_service encodeNone sampleState "/weather"
      { sampleInfo with description := "changed" } true).state.index =
      sampleState.index ∧
    (add_or_update_service encodeNone sampleState "/weather"
      { sampleInfo with description := "changed" } true).saved = false ∧
    (add_or_update_service encodeNone sampleState "/weather"
      { sampleInfo with description := "changed" } true).state.next_id_counter =
      sampleState.next_id_counter := by
  have h := (claim_C1_amended encodeNone sampleState "/weather").1
    { sampleInfo with description := "changed" } true rfl (by
      intro e he
      have he2 : e = sampleEntry := by
        simpa [sampleState, storeGet] using he.symm
      subst he2
      decide)
  exact ⟨h.1, h.2.1, h.2.2.1, h.2.2.2⟩

/-- C2: in every state reachable from the empty store by any sequence of
upserts and removals, the live vector ids are pairwise distinct and
`next_id_counter` strictly exceeds every live id. -/
theorem claim_C2_id_invariant {V : Type} {st : FaissState V}
    (h : Reachable st) :
    (st.metadata_store.map (fun pe => pe.2.id)).Nodup ∧
    ∀ pe ∈ st.metadata_store, pe.2.id < st.next_id_counter :=
  ⟨(reachable_idInv h).2.1, (reachable_idInv h).2.2⟩

/-- C2 (witness): the invariant at the concrete state after one upsert. -/
theorem claim_C2_witness :
    ((add_or_update_service encodeAll (initialState Unit) "/weather"
        sampleInfo true).state.metadata_store.map (fun pe => pe.2.id)).Nodup ∧
    ∀ pe ∈ (add_or_update_service encodeAll (initialState Unit) "/weather"
        sampleInfo true).state.metadata_store,
      pe.2.id < (add_or_update_service encodeAll (initialState Unit)
        "/weather" sampleInfo true).state.next_id_counter :=
  claim_C2_id_invariant
    (Reachable.upsertSvc encodeAll "/weather" sampleInfo true Reachable.init)

/-- C3: re-upserting an existing path with a payload rendering the same
embedding text never calls the encoder, leaves the index and the counter
unchanged and preserves the stored id; when moreover the stored record
equals the enriched new one, the whole operation is a no-op with no save. -/
theorem claim_C3_unchanged_reupsert {V : Type} (enc : String → Option V)
    (st : FaissState V) (p : String) (info : ServerInfo) (b : Bool)
    (e : MetaEntry) (hg : storeGet st.metadata_store p = some e)
    (ht : e.text_for_embedding = get_text_for_embedding info) :
    (add_or_update_service enc st p info b).encode_calls = 0 ∧
    (add_or_update_service enc st p info b).state.index = st.index ∧
    (add_or_update_service enc st p info b).state.next_id_counter =
      st.next_id_counter ∧
    (∃ e2, storeGet
        (add_or_update_service enc st p info b).state.metadata_store p =
        some e2 ∧ e2.id = e.id) ∧
    (e.full_server_info = some (enrich info b) →
      add_or_update_service enc st p info b =
        { state := st, encode_calls := 0, saved := false }) := by
  unfold add_or_update_service
  simp only [hg]
  rw [if_pos ht]
  unfold finishService
  by_cases hw : e.full_server_info = some (enrich info b)
  · simp only [hw]
    refine ⟨by simp, by simp, by simp, ?_, fun _ => by simp⟩
    exact ⟨e, by simpa using hg, rfl⟩
  · have hwd : (false || decide (e.full_server_info ≠ some (enrich info b)))
        = true := by simp [hw]
    simp only [hwd, if_true]
    refine ⟨by trivial, by trivial, by trivial, ?_, fun hcon => absurd hcon hw⟩
    exact ⟨_, storeGet_set_self _ _ _, rfl⟩

/-- C3 (witness): at the concrete one-entry state, re-upserting `/weather`
with the unchanged descriptor is a complete no-op. -/
theorem claim_C3_witness :
    add_or_update_service encodeAll sampleState "/weather" sampleInfo true =
      { state := sampleState, encode_calls := 0, saved := false } :=
  (claim_C3_unchanged_reupsert encodeAll sampleState "/weather" sampleInfo
    true sampleEntry (by decide) rfl).2.2.2.2 rfl

/-- C4 (counterexample): for the duplicate-token query `"cat cat"` against a
tool named `cat`, the matcher's `raw_score` is `2/2 = 1`, not the claimed
`(distinct matched tokens)/(total tokens) = 1/2`: matched tokens are counted
with multiplicity. -/
theorem claim_C4_counterexample :
    tokenize "cat cat" = ["cat", "cat"] ∧
    (extract_matching_tools "cat cat" [catTool]).map ToolMatch.raw_score =
      [1] ∧ (1 : ℚ) ≠ 1 / 2 := by
  have h1 : tokenize "cat cat" = ["cat", "cat"] := by decide
  refine ⟨h1, ?_, by norm_num⟩
  have h2 : matchesFound ["cat", "cat"] catTool = 2 := by decide
  have h3 : ¬ pyStrip (searchableText catTool) = "" := by decide
  unfold extract_matching_tools matchEntry
  simp only [h1, h2, h3]
  simp [h3, h2, sortDescBy, insertDesc]

/-- C4 (amended): the matcher returns [] when the query yields no tokens;
otherwise it returns exactly the tools with non-blank searchable text and at
least one matching token — scored by matched-token count (with multiplicity)
over total token count — ordered descending by that score. -/
theorem claim_C4_amended (q : String) (tools : List ToolDef) :
    (tokenize q = [] → extract_matching_tools q tools = []) ∧
    (extract_matching_tools q tools).Perm (c4Candidates q tools) ∧
    (extract_matching_tools q tools).Pairwise
      (fun a b => b.raw_score ≤ a.raw_score) := by
  refine ⟨?_, ?_, ?_⟩
  · intro h
    unfold extract_matching_tools
    by_cases ht : tools = [] <;> simp [ht, h]
  · by_cases ht : tools = []
    · subst ht
      simp [extract_matching_tools, c4Candidates]
    · by_cases htok : tokenize q = []
      · have hmf : ∀ t : ToolDef, matchesFound (tokenize q) t = 0 := by
          intro t
          simp [matchesFound, htok]
        have hc : c4Candidates q tools = [] := by
          simp [c4Candidates, hmf]
        simp [extract_matching_tools, ht, htok, hc]
      · unfold extract_matching_tools
        simp only [ht, if_false, htok, if_false]
        have hperm := (sortDescBy_perm Prod.fst
          (tools.filterMap (matchEntry (tokenize q)))).map Prod.snd
        rw [filterMap_matchEntry] at hperm
        exact hperm
  · by_cases ht : tools = []
    · simp [extract_matching_tools, ht]
    · by_cases htok : tokenize q = []
      · simp [extract_matching_tools, ht, htok]
      · unfold extract_matching_tools
        simp only [ht, if_false, htok, if_false]
        rw [List.pairwise_map]
        refine List.Pairwise.imp_of_mem ?_ (sortDescBy_sorted Prod.fst _)
        intro a b ha hb hab
        rw [mem_sortDescBy] at ha hb
        rcases List.mem_filterMap.mp ha with ⟨t1, -, hm1⟩
        rcases List.mem_filterMap.mp hb with ⟨t2, -, hm2⟩
        rw [← matchEntry_fst_eq hm1, ← matchEntry_fst_eq hm2]
        exact hab

/-- C4 (witness): the empty-token case and the membership characterization
at the scenario tool. -/
theorem claim_C4_witness :
    extract_matching_tools "" [sampleTool] = [] ∧
    (extract_matching_tools "forecast" [sampleTool]).Perm
      (c4Candidates "forecast" [sampleTool]) :=
  ⟨(claim_C4_amended "" [sampleTool]).1 (by decide),
   (claim_C4_amended "forecast" [sampleTool]).2.1⟩

/-- C5: N successful upserts of N distinct new paths from the empty store
leave `next_id_counter = N` and assign ids 0..N-1 in upsert order. -/
theorem claim_C5_fresh_ids {V : Type} (enc : String → Option V)
    (henc : ∀ s, (enc s).isSome) (ops : List UpsertOp)
    (hnd : (ops.map UpsertOp.path).Nodup) :
    (applyUpserts enc ops (initialState V)).next_id_counter = ops.length ∧
    ∀ i (hi : i < ops.length), ∃ e,
      storeGet (applyUpserts enc ops (initialState V)).metadata_store
        ((ops.get ⟨i, hi⟩).path) = some e ∧ e.id = i := by
  have h := applyUpserts_fresh_ids enc henc ops (initialState V)
    (fun op _ => rfl) hnd
  have h0 : (initialState V).next_id_counter = 0 := rfl
  refine ⟨?_, ?_⟩
  · rw [h.1, h0]
    simp
  · intro i hi
    obtain ⟨e, he, hid⟩ := h.2 i hi
    refine ⟨e, he, ?_⟩
    rw [hid, h0]
    simp

/-- C5 (witness): ids 0 and 1 after the two scenario upserts. -/
theorem claim_C5_witness :
    (applyUpserts encodeAll sampleOps (initialState Unit)).next_id_counter =
      sampleOps.length ∧
    ∀ i (hi : i < sampleOps.length), ∃ e,
      storeGet (applyUpserts encodeAll sampleOps
          (initialState Unit)).metadata_store
        ((sampleOps.get ⟨i, hi⟩).path) = some e ∧ e.id = i :=
  claim_C5_fresh_ids encodeAll (fun _ => rfl) sampleOps (by decide)

/-- C6: removing an absent path is a state-preserving no-op without persist;
removing a present path deletes exactly that metadata entry, persists, and
leaves the vector index and the id counter untouched. -/
theorem claim_C6_remove {V : Type} (st : FaissState V) (p : String) :
    (storeGet st.metadata_store p = none →
      remove_service st p =
        { state := st, encode_calls := 0, saved := false } ∧
      remove_agent st p =
        { state := st, encode_calls := 0, saved := false }) ∧
    (∀ e, storeGet st.metadata_store p = some e →
      (remove_service st p).state.metadata_store =
        storeDel st.metadata_store p ∧
      (remove_service st p).state.index = st.index ∧
      (remove_service st p).state.next_id_counter = st.next_id_counter ∧
      (remove_service st p).saved = true ∧
      (∀ q, q ≠ p →
        storeGet (remove_service st p).state.metadata_store q =
          storeGet st.metadata_store q) ∧
      (StoreWF st.metadata_store →
        storeGet (remove_service st p).state.metadata_store p = none)) := by
  constructor
  · intro h
    unfold remove_service remove_agent
    simp only [h]
    exact ⟨by trivial, by trivial⟩
  · intro e he
    unfold remove_service
    simp only [he]
    refine ⟨by trivial, by trivial, by trivial, by trivial, ?_, ?_⟩
    · intro q hq
      exact storeGet_del_ne _ hq
    · intro hwf
      exact storeGet_del_self hwf

/-- C6 (witness): the no-op on the empty store and the deletion on the
one-entry state. -/
theorem claim_C6_witness :
    remove_service (initialState Unit) "/weather" =
      { state := initialState Unit, encode_calls := 0, saved := false } ∧
    (remove_service sampleState "/weather").state.metadata_store =
      storeDel sampleState.metadata_store "/weather" ∧
    (remove_service sampleState "/weather").saved = true :=
  ⟨((claim_C6_remove (initialState Unit) "/weather").1 rfl).1,
   ((claim_C6_remove sampleState "/weather").2 sampleEntry (by decide)).1,
   ((claim_C6_remove sampleState "/weather").2 sampleEntry
     (by decide)).2.2.2.1⟩

/-- C7: after removing a path, as long as no later operation upserts that
same path, no `search_mixed` result (server, tool or agent) ever carries it:
its id no longer resolves to a metadata entry, so the hit is skipped. -/
theorem claim_C7_removed_path_absent {V : Type} (st : FaissState V)
    (p : String) (hwf : StoreWF st.metadata_store) (ops : List (RegOp V))
    (hops : ∀ op ∈ ops, ¬ op.IsUpsertOf p) (enc : String → Option V)
    (fsearch : List (Int × V) → V → Nat → List (ℚ × Int)) (init : Bool)
    (q : String) (ets : Option (List String)) (mr : Nat)
    (res : SearchResults) (n : Nat)
    (hrun : search_mixed enc fsearch init
      (applyOps ops (remove_service st p).state) q ets mr = (.ok res, n)) :
    (∀ r ∈ res.servers, r.path ≠ p) ∧
    (∀ r ∈ res.tools, r.server_path ≠ p) ∧
    (∀ r ∈ res.agents, r.path ≠ p) := by
  have hdead0 : storeGet (remove_service st p).state.metadata_store p =
      none := by
    unfold remove_service
    cases hg : storeGet st.metadata_store p with
    | none => simpa using hg
    | some e => simpa using storeGet_del_self hwf
  have hdead : storeGet
      (applyOps ops (remove_service st p).state).metadata_store p = none :=
    applyOps_dead ops _ hops hdead0
  have hlive := search_mixed_live enc fsearch init _ q ets mr res n hrun
  refine ⟨?_, ?_, ?_⟩
  · intro r hr hrp
    have hv := hlive.1 r hr
    rw [hrp, hdead] at hv
    simp at hv
  · intro r hr hrp
    have hv := hlive.2.1 r hr
    rw [hrp, hdead] at hv
    simp at hv
  · intro r hr hrp
    have hv := hlive.2.2 r hr
    rw [hrp, hdead] at hv
    simp at hv

/-- C7 (witness): a concrete removal followed by a search whose index still
holds the orphaned vector; the result sets are empty of the removed path. -/
theorem claim_C7_witness :
    (∀ r ∈ (SearchResults.mk [] [] []).servers, r.path ≠ "/weather") ∧
    (∀ r ∈ (SearchResults.mk [] [] []).tools, r.server_path ≠ "/weather") ∧
    (∀ r ∈ (SearchResults.mk [] [] []).agents, r.path ≠ "/weather") :=
  claim_C7_removed_path_absent sampleState "/weather"
    (by unfold StoreWF; decide) [] (by simp) encodeAll
    (fun idx _ k => (idx.take k).map (fun iv => ((0 : ℚ), iv.1))) true
    "hi" none 10 (SearchResults.mk [] [] []) 1 (by rfl)

/-- C8: a blank query makes `search_mixed` fail with the validation error
before any other work; in particular `encode` is never invoked (the call
count is 0). -/
theorem claim_C8_blank_query {V : Type} (enc : String → Option V)
    (fsearch : List (Int × V) → V → Nat → List (ℚ × Int)) (init : Bool)
    (st : FaissState V) (q : String) (ets : Option (List String)) (mr : Nat)
    (h : pyStrip q = "") :
    search_mixed enc fsearch init st q ets mr =
      (.error .validation, 0) := by
  unfold search_mixed
  rw [if_pos h]

/-- C8 (witness): the whitespace query on the concrete state. -/
theorem claim_C8_witness :
    search_mixed encodeAll (fun _ _ _ => []) true sampleState "   " none 10 =
      (.error .validation, 0) :=
  claim_C8_blank_query encodeAll (fun _ _ _ => []) true sampleState "   "
    none 10 (by decide)

/-- C9: for non-negative distances the relevance conversion is the clamp of
`1/(1+d)` (and equals `1/(1+d)` outright), maps 0 to 1, stays in `[0, 1]`,
and is strictly decreasing. -/
theorem claim_C9_relevance (d1 d2 : ℚ) (h0 : 0 ≤ d1) (h12 : d1 < d2) :
    distance_to_relevance 0 = 1 ∧
    distance_to_relevance d1 = 1 / (1 + d1) ∧
    0 ≤ distance_to_relevance d1 ∧ distance_to_relevance d1 ≤ 1 ∧
    distance_to_relevance d2 < distance_to_relevance d1 := by
  have hpos1 : (0 : ℚ) < 1 + d1 := by linarith
  have hpos2 : (0 : ℚ) < 1 + d2 := by linarith
  have hle1 : 1 / (1 + d1) ≤ 1 := by
    rw [div_le_one hpos1]
    linarith
  have hle2 : 1 / (1 + d2) ≤ 1 := by
    rw [div_le_one hpos2]
    linarith
  have hge1 : 0 < 1 / (1 + d1) := by positivity
  have hge2 : 0 < 1 / (1 + d2) := by positivity
  have hid1 : distance_to_relevance d1 = 1 / (1 + d1) := by
    unfold distance_to_relevance
    rw [min_eq_right hle1, max_eq_right (le_of_lt hge1)]
  have hid2 : distance_to_relevance d2 = 1 / (1 + d2) := by
    unfold distance_to_relevance
    rw [min_eq_right hle2, max_eq_right (le_of_lt hge2)]
  refine ⟨by norm_num [distance_to_relevance], hid1, ?_, ?_, ?_⟩
  · rw [hid1]
    linarith
  · rw [hid1]
    exact hle1
  · rw [hid1, hid2]
    exact one_div_lt_one_div_of_lt hpos1 (by linarith)

/-- C9 (witness): the conversion at distances 0 and 1. -/
theorem claim_C9_witness :
    distance_to_relevance 0 = 1 ∧
    distance_to_relevance 0 = 1 / (1 + 0) ∧
    0 ≤ distance_to_relevance 0 ∧ distance_to_relevance 0 ≤ 1 ∧
    distance_to_relevance 1 < distance_to_relevance 0 :=
  claim_C9_relevance 0 1 le_rfl (by norm_num)

/-- C10: `remove_agent` and `remove_service` are the same state transformer
(neither inspects the stored entity type, so either deletes whatever entry
the path holds), `remove_entity` coincides with `remove_agent` (its fallback
is unreachable), and both are no-ops on absent paths. -/
theorem claim_C10_remove_equivalence {V : Type} (st : FaissState V)
    (p : String) :
    remove_agent st p = remove_service st p ∧
    remove_entity st p = remove_agent st p ∧
    (∀ e, storeGet st.metadata_store p = some e →
      (remove_agent st p).state.metadata_store =
        storeDel st.metadata_store p ∧ (remove_agent st p).saved = true) ∧
    (storeGet st.metadata_store p = none →
      remove_agent st p =
        { state := st, encode_calls := 0, saved := false }) := by
  refine ⟨rfl, rfl, ?_, ?_⟩
  · intro e he
    unfold remove_agent
    simp only [he]
    exact ⟨by trivial, by trivial⟩
  · intro h
    unfold remove_agent
    simp only [h]

/-- C10 (witness): `remove_agent` deletes the server-typed entry at
`/weather` (the cross-type deletion in action). -/
theorem claim_C10_witness :
    (remove_agent sampleState "/weather").state.metadata_store =
      storeDel sampleState.metadata_store "/weather" ∧
    (remove_agent sampleState "/weather").saved = true :=
  (claim_C10_remove_equivalence sampleState "/weather").2.2.1 sampleEntry
    (by decide)

end FaissSpec
